import Mathlib

/-!
Verification of the twitter-video-transcriber pipeline.

This file gives a shallow embedding of the server-side pipeline of the
repository (src/server/routes.ts, src/server/services/twitterApi.ts,
src/server/services/speechToText.ts) and proves or refutes the stated
properties of the specification against it.

Modelling conventions:
* JavaScript numbers are modelled as rationals; `Math.floor` is `Int.floor`
  and `Math.round` (half toward positive infinity) is `jsRound`.
  All claims restrict attention to nonnegative inputs, where the JS
  truncating `%` agrees with `Int.emod`.
* Asynchronous stages are modelled by an environment record carrying each
  external outcome (API result, download, extraction, transcription) and
  the wall-clock duration after which the transcription promise settles.
  Timer callbacks are modelled as firing on schedule; the settle time of
  the transcription stage is an unconstrained environment parameter since
  CPU-bound inference can delay timer callbacks arbitrarily.
* The filesystem is a list of existing paths; `fs.unlinkSync` fails on a
  missing path, while the existsSync-guarded cleanups used by the code are
  total functions.
-/

/-- JS `String.prototype.includes` on character lists: `pat` occurs
contiguously inside the second list. -/
def listHasSub (pat : List Char) : List Char → Bool
  | [] => pat.isEmpty
  | c :: cs => pat.isPrefixOf (c :: cs) || listHasSub pat cs

/-- JS `s.includes(pat)` (substring test). -/
def jsIncludes (s pat : String) : Bool :=
  listHasSub pat.toList s.toList

/-- JS `Math.round`: round half toward positive infinity. -/
def jsRound (q : ℚ) : ℤ := ⌊q + 1 / 2⌋

/-- JS `n.toString().padStart(2, '0')` (the code only ever pads to width 2). -/
def padStart2 (s : String) : String :=
  if s.length < 2 then String.mk (List.replicate (2 - s.length) '0') ++ s else s

/-- src/server/services/speechToText.ts `formatTimestamp(seconds, format)`.
Mirrors the source statement for statement: `totalSeconds = Math.floor(seconds)`,
`minutes = Math.floor(totalSeconds / 60)`, `remainingSeconds = totalSeconds % 60`,
and in detailed mode `hours = Math.floor(minutes / 60)`,
`remainingMinutes = minutes % 60`,
`milliseconds = Math.floor((seconds - totalSeconds) * 100)` (centiseconds).
The defensive fallback branch returns the numeric string of the input; no
claim depends on its exact rendering. -/
def formatTimestamp (seconds : ℚ) (format : String) : String :=
  if format = "none" then ""
  else
    let totalSeconds : ℤ := ⌊seconds⌋
    let minutes : ℤ := ⌊(totalSeconds : ℚ) / 60⌋
    let remainingSeconds : ℤ := totalSeconds % 60
    if format = "seconds" then
      toString minutes ++ ":" ++ padStart2 (toString remainingSeconds)
    else if format = "detailed" then
      let hours : ℤ := ⌊(minutes : ℚ) / 60⌋
      let remainingMinutes : ℤ := minutes % 60
      let milliseconds : ℤ := ⌊(seconds - (totalSeconds : ℚ)) * 100⌋
      padStart2 (toString hours) ++ ":" ++ padStart2 (toString remainingMinutes) ++ ":" ++
        padStart2 (toString remainingSeconds) ++ "." ++ padStart2 (toString milliseconds)
    else toString seconds

/-- Flooring a nonnegative rational after dividing by a positive natural is
natural division of its integer part. -/
theorem floor_div_nat_of_nonneg (s : ℚ) (h : 0 ≤ s) (k : ℕ) (hk : 0 < k) :
    ⌊s / (k : ℚ)⌋ = ((⌊s⌋.toNat / k : ℕ) : ℤ) := by
  have hfl : ((⌊s⌋.toNat : ℕ) : ℤ) = ⌊s⌋ := Int.toNat_of_nonneg (Int.floor_nonneg.mpr h)
  set n : ℕ := ⌊s⌋.toNat with hndef
  have hns : ((n : ℚ)) ≤ s := by
    have := Int.floor_le s
    rw [← hfl] at this
    exact_mod_cast this
  have hsn : s < (n : ℚ) + 1 := by
    have := Int.lt_floor_add_one s
    rw [← hfl] at this
    exact_mod_cast this
  have hkq : (0 : ℚ) < (k : ℚ) := by exact_mod_cast hk
  rw [Int.floor_eq_iff]
  constructor
  · have h1 : ((n / k : ℕ) : ℚ) * (k : ℚ) ≤ (n : ℚ) := by
      exact_mod_cast (Nat.cast_le (α := ℚ)).mpr (Nat.div_mul_le_self n k)
    rw [le_div_iff₀ hkq]
    have h1' : (((n / k : ℕ) : ℤ) : ℚ) * (k : ℚ) ≤ (n : ℚ) := by exact_mod_cast h1
    linarith
  · have hdm := Nat.div_add_mod n k
    have hmod : n % k < k := Nat.mod_lt n hk
    have hstep : n + 1 ≤ k * (n / k) + k := by omega
    have h2 : (n : ℚ) + 1 ≤ ((n / k : ℕ) : ℚ) * (k : ℚ) + (k : ℚ) := by
      have : ((n + 1 : ℕ) : ℚ) ≤ ((k * (n / k) + k : ℕ) : ℚ) := by exact_mod_cast hstep
      push_cast at this
      linarith
    rw [div_lt_iff₀ hkq]
    have h2' : (n : ℚ) + 1 ≤ (((n / k : ℕ) : ℤ) : ℚ) * (k : ℚ) + (k : ℚ) := by
      exact_mod_cast h2
    nlinarith

/-- Same statement for an integer cast of the floor itself. -/
theorem floor_cast_div_nat (s : ℚ) (h : 0 ≤ s) (k : ℕ) (hk : 0 < k) :
    ⌊((⌊s⌋ : ℤ) : ℚ) / (k : ℚ)⌋ = ((⌊s⌋.toNat / k : ℕ) : ℤ) := by
  have h0 : (0 : ℚ) ≤ ((⌊s⌋ : ℤ) : ℚ) := by
    exact_mod_cast Int.floor_nonneg.mpr h
  have := floor_div_nat_of_nonneg ((⌊s⌋ : ℤ) : ℚ) h0 k hk
  rwa [Int.floor_intCast] at this

/-- Specialization of the floor-division lemma to the divisor 60 as a rational
numeral. -/
theorem floor_div_q60 (s : ℚ) (h : 0 ≤ s) :
    ⌊s / 60⌋ = ((⌊s⌋.toNat / 60 : ℕ) : ℤ) := by
  simpa using floor_div_nat_of_nonneg s h 60 (by norm_num)

/-- Specialization of the floor-division lemma to the divisor 3600. -/
theorem floor_div_q3600 (s : ℚ) (h : 0 ≤ s) :
    ⌊s / 3600⌋ = ((⌊s⌋.toNat / 3600 : ℕ) : ℤ) := by
  simpa using floor_div_nat_of_nonneg s h 3600 (by norm_num)

/-- The `minutes` computed by the source (`Math.floor(totalSeconds / 60)`)
equal natural division of the integer part. -/
theorem code_minutes_eq (s : ℚ) (h : 0 ≤ s) :
    ⌊((⌊s⌋ : ℤ) : ℚ) / 60⌋ = ((⌊s⌋.toNat / 60 : ℕ) : ℤ) := by
  simpa using floor_cast_div_nat s h 60 (by norm_num)

/-- The `hours` computed by the source (`Math.floor(minutes / 60)`) equal
natural division of the integer part by 3600. -/
theorem code_hours_eq (n : ℕ) :
    ⌊(((n / 60 : ℕ) : ℤ) : ℚ) / 60⌋ = ((n / 3600 : ℕ) : ℤ) := by
  have h0 : (0 : ℚ) ≤ ((n / 60 : ℕ) : ℚ) := by positivity
  have h1 := floor_div_nat_of_nonneg ((n / 60 : ℕ) : ℚ) h0 60 (by norm_num)
  rw [Int.floor_natCast] at h1
  have h2 : ((n / 60 : ℕ) : ℤ).toNat = n / 60 := Int.toNat_natCast _
  rw [h2, Nat.div_div_eq_div_mul] at h1
  norm_num at h1
  push_cast
  convert h1 using 2

/-- C7. For every nonnegative number of seconds, detailed mode returns
zero-padded hours, a colon, two-digit minutes mod 60, a colon, two-digit
seconds mod 60, a dot, and two-digit centiseconds computed as
`floor((seconds - floor(seconds)) * 100)`. -/
theorem formatTimestamp_detailed_spec (s : ℚ) (h : 0 ≤ s) :
    formatTimestamp s "detailed" =
      padStart2 (toString ⌊s / 3600⌋) ++ ":" ++
      padStart2 (toString (⌊s / 60⌋ % 60)) ++ ":" ++
      padStart2 (toString (⌊s⌋ % 60)) ++ "." ++
      padStart2 (toString ⌊(s - ((⌊s⌋ : ℤ) : ℚ)) * 100⌋) := by
  simp only [formatTimestamp, String.reduceEq, reduceIte]
  rw [code_minutes_eq s h, code_hours_eq ⌊s⌋.toNat, floor_div_q60 s h, floor_div_q3600 s h]

/-- C7 witness: `format(75.5, "detailed") = "00:01:15.50"`. -/
theorem formatTimestamp_detailed_spec_witness :
    (0 : ℚ) ≤ 151 / 2 ∧ formatTimestamp (151 / 2) "detailed" = "00:01:15.50" := by
  refine ⟨by norm_num, ?_⟩
  rw [formatTimestamp_detailed_spec (151 / 2) (by norm_num)]
  norm_num
  decide

/-- C8. For every nonnegative number of seconds, seconds mode returns
`floor(seconds / 60)`, a colon, and two-digit seconds mod 60; there is no
hour component (minutes are unbounded). -/
theorem formatTimestamp_seconds_spec (s : ℚ) (h : 0 ≤ s) :
    formatTimestamp s "seconds" =
      toString ⌊s / 60⌋ ++ ":" ++ padStart2 (toString (⌊s⌋ % 60)) := by
  simp only [formatTimestamp, String.reduceEq, reduceIte]
  rw [code_minutes_eq s h, floor_div_q60 s h]

/-- C8 witness: `format(3660, "seconds") = "61:00"`, no hour component even
though the input exceeds one hour. -/
theorem formatTimestamp_seconds_spec_witness :
    (0 : ℚ) ≤ 3660 ∧ formatTimestamp 3660 "seconds" = "61:00" := by
  refine ⟨by norm_num, ?_⟩
  rw [formatTimestamp_seconds_spec 3660 (by norm_num)]
  norm_num
  decide

/-- A video variant attached to tweet media
(src/server/services/twitterApi.ts). `bit_rate` is optional in the API
payload; `none` models an absent field. -/
structure Variant where
  content_type : String
  bit_rate : Option ℕ
  url : String
deriving DecidableEq, Repr

/-- The bitrate used for comparisons (`b.bit_rate - a.bit_rate`); only
applied to variants that passed the truthiness filter, where it is present. -/
def variantBitrate (v : Variant) : ℕ := v.bit_rate.getD 0

/-- The filter `v.content_type === "video/mp4" && v.bit_rate` from
`extractVideoUrl`; JS truthiness of `v.bit_rate` excludes both an absent
field and a zero bitrate. -/
def isMp4WithBitrate (v : Variant) : Bool :=
  v.content_type == "video/mp4" &&
    (match v.bit_rate with
     | some b => b != 0
     | none => false)

/-- Stable insertion used to model the JS stable sort
`[...].sort((a, b) => b.bit_rate - a.bit_rate)`: a later element is placed
after every earlier element with a bitrate at least as large. -/
def insertByBitrateDesc (v : Variant) : List Variant → List Variant
  | [] => [v]
  | w :: ws =>
    if variantBitrate w < variantBitrate v then v :: w :: ws
    else w :: insertByBitrateDesc v ws

/-- The sorted variant list of `extractVideoUrl`: stable descending sort by
bitrate. -/
def sortByBitrateDesc (l : List Variant) : List Variant :=
  l.foldl (fun acc v => insertByBitrateDesc v acc) []

/-- A media object from the tweet payload includes. -/
structure MediaObj where
  media_key : String
  type : String
  variants : List Variant
  preview_image_url : Option String
deriving DecidableEq, Repr

/-- The slice of the tweet payload read by `extractVideoUrl`: the
`attachments.media_keys` of the (first) tweet and the `includes.media`
array. -/
structure TweetData where
  media_keys : List String
  media : List MediaObj
deriving DecidableEq, Repr

/-- The three failure messages thrown by `extractVideoUrl`. -/
inductive ExtractVideoError
  | noMediaFound      -- "No media found in tweet"
  | noVideoFound      -- "No video found in tweet"
  | couldNotExtract   -- "Could not extract video URL from tweet"
deriving DecidableEq, Repr

/-- src/server/services/twitterApi.ts `extractVideoUrl(tweetData)`:
first media key, lookup in `includes.media`, require a video, pick the
highest-bitrate MP4 variant via a stable descending sort, fall back to the
preview image, and otherwise fail. An empty `variants` array and a variant
list with no qualifying MP4 entry take the same fallback path, as in the
source. -/
def extractVideoUrl (t : TweetData) : Except ExtractVideoError String :=
  match t.media_keys with
  | [] => .error .noMediaFound
  | mediaKey :: _ =>
    match t.media.find? (fun m => m.media_key == mediaKey) with
    | none => .error .noVideoFound
    | some media =>
      if media.type ≠ "video" then .error .noVideoFound
      else
        match sortByBitrateDesc (media.variants.filter isMp4WithBitrate) with
        | v :: _ => .ok v.url
        | [] =>
          match media.preview_image_url with
          | some p => .ok p
          | none => .error .couldNotExtract

/-- One step of the running head of the stable descending sort: the later
element replaces the current best only on a strictly larger bitrate. -/
def stepBest (o : Option Variant) (v : Variant) : Option Variant :=
  match o with
  | none => some v
  | some w => some (if variantBitrate w < variantBitrate v then v else w)

/-- Running first-at-maximum of a variant list, seeded with `w`. -/
def bestAux (w : Variant) : List Variant → Variant
  | [] => w
  | v :: vs => bestAux (if variantBitrate w < variantBitrate v then v else w) vs

theorem insertByBitrateDesc_head (v : Variant) (l : List Variant) :
    (insertByBitrateDesc v l).head? = stepBest l.head? v := by
  cases l with
  | nil => rfl
  | cons w ws =>
    by_cases h : variantBitrate w < variantBitrate v
    · simp [insertByBitrateDesc, stepBest, h]
    · simp [insertByBitrateDesc, stepBest, h]

theorem foldl_insert_head (l : List Variant) :
    ∀ acc : List Variant,
      (l.foldl (fun a v => insertByBitrateDesc v a) acc).head? = l.foldl stepBest acc.head? := by
  induction l with
  | nil => intro acc; rfl
  | cons v vs ih =>
    intro acc
    simp only [List.foldl_cons]
    rw [ih (insertByBitrateDesc v acc), insertByBitrateDesc_head]

theorem foldl_stepBest_some (l : List Variant) :
    ∀ w, l.foldl stepBest (some w) = some (bestAux w l) := by
  induction l with
  | nil => intro w; rfl
  | cons v vs ih =>
    intro w
    simp only [List.foldl_cons, stepBest, bestAux]
    exact ih _

theorem sortByBitrateDesc_head (v : Variant) (vs : List Variant) :
    (sortByBitrateDesc (v :: vs)).head? = some (bestAux v vs) := by
  unfold sortByBitrateDesc
  rw [foldl_insert_head]
  simp only [List.head?_nil, List.foldl_cons, stepBest]
  exact foldl_stepBest_some vs v

theorem bestAux_max (l : List Variant) :
    ∀ w, ∀ u ∈ w :: l, variantBitrate u ≤ variantBitrate (bestAux w l) := by
  induction l with
  | nil =>
    intro w u hu
    simp at hu
    subst hu
    exact le_refl _
  | cons v vs ih =>
    intro w u hu
    have hw : variantBitrate w ≤
        variantBitrate (if variantBitrate w < variantBitrate v then v else w) := by
      by_cases h : variantBitrate w < variantBitrate v
      · simp [h]; omega
      · simp [h]
    have hv : variantBitrate v ≤
        variantBitrate (if variantBitrate w < variantBitrate v then v else w) := by
      by_cases h : variantBitrate w < variantBitrate v
      · simp [h]
      · simp [h]; omega
    have hm := ih (if variantBitrate w < variantBitrate v then v else w)
    have hmm : variantBitrate (if variantBitrate w < variantBitrate v then v else w) ≤
        variantBitrate (bestAux (if variantBitrate w < variantBitrate v then v else w) vs) :=
      hm _ (List.mem_cons_self _ _)
    rcases List.mem_cons.mp hu with h1 | h1
    · subst h1
      simp only [bestAux]
      exact le_trans hw hmm
    · rcases List.mem_cons.mp h1 with h2 | h2
      · subst h2
        simp only [bestAux]
        exact le_trans hv hmm
      · simp only [bestAux]
        exact hm u (List.mem_cons_of_mem _ h2)

theorem bestAux_first (l : List Variant) :
    ∀ w, ∃ l₁ l₂, w :: l = l₁ ++ bestAux w l :: l₂ ∧
      ∀ u ∈ l₁, variantBitrate u < variantBitrate (bestAux w l) := by
  induction l with
  | nil => intro w; exact ⟨[], [], rfl, by simp⟩
  | cons v vs ih =>
    intro w
    by_cases h : variantBitrate w < variantBitrate v
    · obtain ⟨l₁, l₂, heq, hlt⟩ := ih v
      have hb : bestAux w (v :: vs) = bestAux v vs := by simp [bestAux, h]
      refine ⟨w :: l₁, l₂, ?_, ?_⟩
      · rw [hb]
        calc w :: v :: vs = w :: (l₁ ++ bestAux v vs :: l₂) := by rw [← heq]
        _ = (w :: l₁) ++ bestAux v vs :: l₂ := by simp
      · intro u hu
        rw [hb]
        rcases List.mem_cons.mp hu with h1 | h1
        · subst h1
          have hv : variantBitrate v ≤ variantBitrate (bestAux v vs) :=
            bestAux_max vs v v (List.mem_cons_self _ _)
          exact lt_of_lt_of_le h hv
        · exact hlt u h1
    · obtain ⟨l₁, l₂, heq, hlt⟩ := ih w
      have hb : bestAux w (v :: vs) = bestAux w vs := by simp [bestAux, h]
      cases l₁ with
      | nil =>
        simp only [List.nil_append] at heq
        have hwb : bestAux w vs = w := by
          have := heq
          injection this with h1 h2
          exact h1.symm
        refine ⟨[], v :: vs, ?_, by simp⟩
        rw [hb, hwb]
        simp
      | cons x l₁' =>
        have hx : x = w ∧ vs = l₁' ++ bestAux w vs :: l₂ := by
          rw [List.cons_append] at heq
          injection heq with h1 h2
          exact ⟨h1.symm, h2⟩
        refine ⟨w :: v :: l₁', l₂, ?_, ?_⟩
        · rw [hb]
          calc w :: v :: vs = w :: v :: (l₁' ++ bestAux w vs :: l₂) := by rw [← hx.2]
          _ = (w :: v :: l₁') ++ bestAux w vs :: l₂ := by simp
        · intro u hu
          rw [hb]
          have hwlt : variantBitrate w < variantBitrate (bestAux w vs) := by
            have hxl := hlt x (List.mem_cons_self _ _)
            rw [hx.1] at hxl
            exact hxl
          rcases List.mem_cons.mp hu with h1 | h1
          · subst h1; exact hwlt
          · rcases List.mem_cons.mp h1 with h2 | h2
            · rw [h2]
              have hvw : variantBitrate v ≤ variantBitrate w := le_of_not_lt h
              exact lt_of_le_of_lt hvw hwlt
            · exact hlt u (List.mem_cons_of_mem _ h2)

/-- C4. When the first attached media object is a video and at least one
variant passes the MP4-with-bitrate filter, the resolved URL is the URL of
a variant that attains the maximum bitrate among the qualifying variants
and is the first qualifying variant to attain it (every qualifying variant
that precedes it has a strictly smaller bitrate). -/
theorem extractVideoUrl_best (t : TweetData) (mediaKey : String) (m : MediaObj)
    (v : Variant) (vs : List Variant)
    (hk : t.media_keys.head? = some mediaKey)
    (hm : t.media.find? (fun mo => mo.media_key == mediaKey) = some m)
    (ht : m.type = "video")
    (hf : m.variants.filter isMp4WithBitrate = v :: vs) :
    ∃ best l₁ l₂,
      extractVideoUrl t = .ok best.url ∧
      v :: vs = l₁ ++ best :: l₂ ∧
      (∀ u ∈ v :: vs, variantBitrate u ≤ variantBitrate best) ∧
      (∀ u ∈ l₁, variantBitrate u < variantBitrate best) := by
  obtain ⟨l₁, l₂, heq, hlt⟩ := bestAux_first vs v
  refine ⟨bestAux v vs, l₁, l₂, ?_, heq, bestAux_max vs v, hlt⟩
  unfold extractVideoUrl
  cases hkk : t.media_keys with
  | nil => rw [hkk] at hk; simp at hk
  | cons k ks =>
    rw [hkk] at hk
    simp only [List.head?_cons, Option.some.injEq] at hk
    subst hk
    simp only [hm, ht, ne_eq, not_true_eq_false, if_false, ite_false]
    rw [hf]
    have hh := sortByBitrateDesc_head v vs
    cases hss : sortByBitrateDesc (v :: vs) with
    | nil => rw [hss] at hh; simp at hh
    | cons b bs =>
      rw [hss] at hh
      simp only [List.head?_cons, Option.some.injEq] at hh
      rw [hh]

/-- C10. When the first attached media object is a video but no variant
passes the MP4-with-bitrate filter, resolution does not fail with the
no-video-found error: it returns the preview image URL when present and
fails with the could-not-extract error only when no preview exists. -/
theorem extractVideoUrl_fallback (t : TweetData) (mediaKey : String) (m : MediaObj)
    (hk : t.media_keys.head? = some mediaKey)
    (hm : t.media.find? (fun mo => mo.media_key == mediaKey) = some m)
    (ht : m.type = "video")
    (hf : m.variants.filter isMp4WithBitrate = []) :
    extractVideoUrl t = (match m.preview_image_url with
      | some p => Except.ok p
      | none => Except.error ExtractVideoError.couldNotExtract) ∧
    extractVideoUrl t ≠ Except.error ExtractVideoError.noVideoFound := by
  have hmain : extractVideoUrl t = (match m.preview_image_url with
      | some p => Except.ok p
      | none => Except.error ExtractVideoError.couldNotExtract) := by
    unfold extractVideoUrl
    cases hkk : t.media_keys with
    | nil => rw [hkk] at hk; simp at hk
    | cons k ks =>
      rw [hkk] at hk
      simp only [List.head?_cons, Option.some.injEq] at hk
      subst hk
      simp only [hm, ht, ne_eq, not_true_eq_false, if_false, ite_false]
      rw [hf]
      rfl
  refine ⟨hmain, ?_⟩
  rw [hmain]
  cases m.preview_image_url with
  | some p => simp
  | none => simp

def exVariantA : Variant := ⟨"video/mp4", some 500, "A"⟩

def exVariantB : Variant := ⟨"video/mp4", some 1200, "B"⟩

def exMedia : MediaObj := ⟨"mk1", "video", [exVariantA, exVariantB], none⟩

def exTweet : TweetData := ⟨["mk1"], [exMedia]⟩

/-- C4 witness: for variants `[(bitrate 500, A), (bitrate 1200, B)]` the
resolved URL is `B`. -/
theorem extractVideoUrl_best_witness :
    extractVideoUrl exTweet = Except.ok "B" ∧
    (∃ best l₁ l₂,
      extractVideoUrl exTweet = .ok best.url ∧
      exVariantA :: [exVariantB] = l₁ ++ best :: l₂ ∧
      (∀ u ∈ exVariantA :: [exVariantB], variantBitrate u ≤ variantBitrate best) ∧
      (∀ u ∈ l₁, variantBitrate u < variantBitrate best)) :=
  ⟨rfl, extractVideoUrl_best exTweet "mk1" exMedia exVariantA [exVariantB] rfl rfl rfl rfl⟩

def exMediaNoMp4 : MediaObj := ⟨"mk2", "video", [⟨"application/x-mpegURL", none, "H"⟩], some "P"⟩

def exTweetNoMp4 : TweetData := ⟨["mk2"], [exMediaNoMp4]⟩

/-- C10 witness: a video whose only variant is a non-MP4 playlist resolves
to the preview image URL and not to the no-video-found error. -/
theorem extractVideoUrl_fallback_witness :
    extractVideoUrl exTweetNoMp4 = Except.ok "P" ∧
    extractVideoUrl exTweetNoMp4 ≠ Except.error ExtractVideoError.noVideoFound :=
  extractVideoUrl_fallback exTweetNoMp4 "mk2" exMediaNoMp4 rfl rfl rfl rfl

/-- One time-aligned chunk of the speech-recognition output: start time in
seconds and text. -/
structure TranscriptionChunk where
  start : ℚ
  text : String
deriving DecidableEq, Repr

/-- A transcript segment `(timestamp, text)` (shared/schema.ts
`TranscriptSegment`). -/
structure TranscriptSegment where
  timestamp : String
  text : String
deriving DecidableEq, Repr

/-- The value produced by `transcribeAudio`: formatted segments plus the
detected language. -/
structure TranscriptionResult where
  segments : List TranscriptSegment
  language : String
deriving DecidableEq, Repr

/-- The fields of the model output read by `transcribeAudio`
(`result.chunks`, `result.text`, `result.language`); `chunks = none` models
a payload whose `chunks` field is not an array. -/
structure ASROutput where
  chunks : Option (List TranscriptionChunk)
  text : Option String
  language : Option String
deriving DecidableEq, Repr

/-- JS `a || b` for an optionally-present string: an absent or empty string
falls back to the default. -/
def jsOrString (o : Option String) (d : String) : String :=
  match o with
  | some s => if s = "" then d else s
  | none => d

/-- Environment of one `transcribeAudio` call: outcome of the WAV decode,
the durations after which the model-load and inference promises settle
(milliseconds), and the inference outcome. -/
structure TranscribeEnv where
  decode : Except String Unit
  loadDur : ℕ
  inferDur : ℕ
  inference : Except String ASROutput
deriving Repr

/-- Externally visible actions performed by one `transcribeAudio` call, in
program order. `loadModel` marks the invocation of the
`pipeline` model factory for automatic speech recognition. -/
inductive STAction
  | readFile
  | decodeWav
  | loadModel
  | runInference
  | unlinkAudio
deriving DecidableEq, Repr

/-- Result of one `transcribeAudio` call: the settled value, the filesystem
after the call, and the action trace. -/
structure TranscribeOutcome where
  result : Except String TranscriptionResult
  fs : List String
  trace : List STAction
deriving Repr

/-- The 60-second stage timeout of `transcribeAudio`. -/
def TRANSCRIPTION_TIMEOUT : ℕ := 60000

/-- The catch block of `transcribeAudio`: existsSync-guarded deletion of
the audio file (a missing file is skipped silently), then classification of
the message into a user-facing error. -/
def transcribeCatch (fs : List String) (audioPath : String) (trace : List STAction)
    (m : String) : TranscribeOutcome :=
  let fs1 := if audioPath ∈ fs then fs.erase audioPath else fs
  let errorMessage :=
    if jsIncludes m "timed out" then
      "Transcription timed out. The video may be too long or the server is under high load."
    else if jsIncludes m "memory" then
      "Server ran out of memory while processing. Please try with a shorter video."
    else "Transcription error: " ++ m
  ⟨.error errorMessage, fs1, trace⟩

/-- src/server/services/speechToText.ts `transcribeAudio(audioPath,
language, timestampFormat)`. Reads and decodes the WAV file, invokes the
`pipeline` model factory (this happens on every call: the module keeps no
model cache), races load and inference against one shared 60-second timer,
unlinks the audio file unconditionally on success (safe there because the
file was present at entry and nothing has removed it), maps chunks through
`formatTimestamp`, and in the catch block deletes the file behind an
existsSync guard and rewrites the message. `String.trim` stands in for the
JS `trim()`. -/
def transcribeAudio (tenv : TranscribeEnv) (audioPath language timestampFormat : String)
    (fs : List String) : TranscribeOutcome :=
  if audioPath ∈ fs then
    let t0 : List STAction := [.readFile]
    match tenv.decode with
    | .error m => transcribeCatch fs audioPath t0 m
    | .ok _ =>
      let t1 := t0 ++ [.decodeWav, .loadModel]
      if TRANSCRIPTION_TIMEOUT ≤ tenv.loadDur then
        transcribeCatch fs audioPath t1 "Transcription timed out after 60 seconds"
      else
        let t2 := t1 ++ [.runInference]
        if TRANSCRIPTION_TIMEOUT ≤ tenv.loadDur + tenv.inferDur then
          transcribeCatch fs audioPath t2 "Transcription timed out after 60 seconds"
        else
          match tenv.inference with
          | .error m => transcribeCatch fs audioPath t2 m
          | .ok out =>
            let fs1 := fs.erase audioPath
            let t3 := t2 ++ [.unlinkAudio]
            let segments :=
              match out.chunks with
              | some chunks => chunks.map fun c =>
                  TranscriptSegment.mk (formatTimestamp c.start timestampFormat) c.text.trim
              | none =>
                [⟨"", (out.text).getD "Transcription completed but no segments available"⟩]
            ⟨.ok ⟨segments, jsOrString out.language "en"⟩, fs1, t3⟩
  else
    transcribeCatch fs audioPath [] "ENOENT: no such file or directory"

/-- Sequential composition of `transcribeAudio` calls within one process:
traces concatenate and the filesystem threads through. -/
def transcribeCalls : List (TranscribeEnv × String) → List String → List STAction
  | [], _ => []
  | (tenv, p) :: rest, fs =>
    let r := transcribeAudio tenv p "auto" "seconds" fs
    r.trace ++ transcribeCalls rest r.fs

/-- An environment in which decode, load and inference all succeed
immediately. -/
def tenvLoadOk : TranscribeEnv :=
  ⟨.ok (), 0, 0, .ok ⟨some [⟨0, "hi"⟩], none, some "en"⟩⟩

/-- C2 counterexample: two successful `transcribeAudio` calls in one
process perform two model loads, refuting load-at-most-once reuse. -/
theorem transcribeAudio_two_calls_two_loads :
    (transcribeCalls [(tenvLoadOk, "a.wav"), (tenvLoadOk, "b.wav")]
        ["a.wav", "b.wav"]).count STAction.loadModel = 2 ∧
    ¬ (transcribeCalls [(tenvLoadOk, "a.wav"), (tenvLoadOk, "b.wav")]
        ["a.wav", "b.wav"]).count STAction.loadModel ≤ 1 := by
  refine ⟨by decide, by decide⟩

/-- C2 amended. Every `transcribeAudio` call that reaches the model-loading
step (file present, WAV decode succeeded) invokes the model factory exactly
once; there is no process-wide cache, so n such calls perform n loads. -/
theorem transcribeAudio_loads_model_each_call (tenv : TranscribeEnv)
    (p l f : String) (fs : List String)
    (hp : p ∈ fs) (hd : tenv.decode = .ok ()) :
    (transcribeAudio tenv p l f fs).trace.count STAction.loadModel = 1 := by
  unfold transcribeAudio
  rw [if_pos hp, hd]
  dsimp only
  by_cases h1 : TRANSCRIPTION_TIMEOUT ≤ tenv.loadDur
  · rw [if_pos h1]; rfl
  · rw [if_neg h1]
    by_cases h2 : TRANSCRIPTION_TIMEOUT ≤ tenv.loadDur + tenv.inferDur
    · rw [if_pos h2]; rfl
    · rw [if_neg h2]
      cases hi : tenv.inference with
      | error m => rfl
      | ok out => rfl

/-- C2 witness: a concrete successful call performs exactly one load. -/
theorem transcribeAudio_loads_model_each_call_witness :
    (transcribeAudio tenvLoadOk "w.wav" "auto" "seconds" ["w.wav"]).trace.count
      STAction.loadModel = 1 :=
  transcribeAudio_loads_model_each_call tenvLoadOk "w.wav" "auto" "seconds" ["w.wav"]
    (by decide) rfl

/-- A regular progress payload built by `broadcastProgress` in
src/server/routes.ts. -/
structure ProgressPayload where
  step : ℕ
  progress : ℕ
  status : String
  message : String
  overallProgress : ℤ
deriving DecidableEq, Repr

/-- An event pushed on the WebSocket channel: a progress payload or an
error payload (`broadcastProgress` with step 0, carrying the given value as
`overallProgress`). -/
inductive WsEvent
  | progress (p : ProgressPayload)
  | error (message : String) (overallProgress : ℕ)
deriving DecidableEq, Repr

/-- The `overallProgress` carried by an event. -/
def overallOf : WsEvent → ℤ
  | .progress p => p.overallProgress
  | .error _ o => (o : ℤ)

/-- Step status derivation of `broadcastProgress`. -/
def statusOf (stepProgress : ℕ) : String :=
  if stepProgress == 100 then "completed"
  else if 0 < stepProgress then "active"
  else "pending"

/-- The expression
`Math.min(Math.round((step - 1) * 25 + (stepProgress * 25) / 100), 100)`
from `broadcastProgress`. -/
def computeOverall (step stepProgress : ℕ) : ℤ :=
  min (jsRound (((step : ℚ) - 1) * 25 + ((stepProgress : ℚ) * 25) / 100)) 100

/-- A regular progress event as assembled by `broadcastProgress`. The
fan-out to open sockets is not modelled: the claims concern the sequence of
emitted events, and skipping non-open observers preserves subsequence
order. -/
def mkProgress (step stepProgress : ℕ) (message : String) : WsEvent :=
  .progress ⟨step, stepProgress, statusOf stepProgress, message, computeOverall step stepProgress⟩

/-- The message broadcast by the synthetic 3-second progress ticker. -/
def tickMessage : String :=
  "Transcription in progress... this may take a minute. Using a smaller model to reduce CPU usage."

/-- Events emitted by the synthetic interval while transcription runs:
starting from the current progress value, each firing increments by the
random amount and broadcasts only while the previous value was below 80.
The increments are environment data; the source draws them from
`Math.floor(Math.random() * 5) + 1`, so each lies in 1..5. -/
def tickEvents (currentProgress : ℕ) : List ℕ → List WsEvent
  | [] => []
  | i :: is =>
    if currentProgress < 80 then
      mkProgress 4 (currentProgress + i) tickMessage :: tickEvents (currentProgress + i) is
    else tickEvents currentProgress is

/-- Result of `getTwitterVideoInfo` consumed by the orchestrator. -/
structure VideoInfo where
  tweetId : String
  username : String
  authorName : String
  videoUrl : String
  tweetText : String
deriving DecidableEq, Repr

/-- The validated request body (shared/schema.ts `twitterUrlSchema`). -/
structure TwitterUrlInput where
  url : String
  language : String
  timestampFormat : String
deriving DecidableEq, Repr

/-- The record returned by `processTwitterVideo` on success. -/
structure TranscriptData where
  twitterUrl : String
  videoTitle : String
  username : String
  duration : String
  language : String
  timestampFormat : String
  segments : List TranscriptSegment
deriving DecidableEq, Repr

/-- Environment of one `processTwitterVideo` run: the settled outcome and
duration of each asynchronous stage, whether a failing `transcribeAudio`
already deleted the audio file before rejecting (the current revision does,
an older one does not; the claims hold either way), and the ticker
increments. Only the transcription duration is consulted by the code: no
timer wraps metadata fetch, download or extraction. -/
structure PipelineEnv where
  metadata : Except String VideoInfo
  metadataDur : ℕ
  download : Except String ℕ
  downloadDur : ℕ
  extraction : Except String String
  extractionDur : ℕ
  transcription : Except String TranscriptionResult
  transcriptionDur : ℕ
  transcribeCleaned : Bool
  ticks : List ℕ
deriving Repr

/-- Observable result of one run: emitted events in order, the settled
value or thrown error, and the filesystem afterwards. -/
structure RunResult where
  events : List WsEvent
  result : Except String TranscriptData
  fs : List String
deriving Repr

/-- The outer 90-second timer of `processTwitterVideo`. -/
def OVERALL_TIMEOUT : ℕ := 90000

/-- The existsSync-guarded `unlinkSync` used by the orchestrator cleanups:
a missing file is skipped silently, and unlink errors are caught and only
logged, so the cleanup is total. -/
def cleanupIfExists (fs : List String) (p : String) : List String :=
  if p ∈ fs then fs.erase p else fs

/-- Bare `fs.unlinkSync`: fails on a missing path. -/
def unlinkSync (fs : List String) (p : String) : Except String (List String) :=
  if p ∈ fs then .ok (fs.erase p) else .error "ENOENT: no such file or directory"

/-- The catch block of `processTwitterVideo`: the ordered
`error.message.includes(...)` chain, returning the broadcast message and
the thrown message. -/
def classifyError (m : String) : String × String :=
  if jsIncludes m "rate limit" || jsIncludes m "429" then
    ("Twitter API rate limit exceeded. Please try again later.",
     "Twitter API rate limit exceeded. Please try again in a few minutes.")
  else if jsIncludes m "No video found" then
    ("No video found in the tweet. Please try a different tweet URL.",
     "No video found in the tweet. Please try a different tweet URL.")
  else if jsIncludes m "Tweet not found" then
    ("Tweet not found. The tweet may be private or deleted.",
     "Tweet not found. The tweet may be private or deleted.")
  else if jsIncludes m "No valid Twitter API credentials" then
    ("Twitter API credentials are missing or invalid.",
     "Twitter API credentials are missing or invalid. Please check your environment variables.")
  else if jsIncludes m "timed out" then
    ("Transcription process timed out. Try a shorter video or try again later.",
     "Transcription process timed out. The video may be too long or complex for processing.")
  else if jsIncludes m "memory" then
    ("Server ran out of memory. Please try a shorter video.",
     "Server ran out of memory while processing. Please try a shorter video.")
  else ("Error: " ++ m, m)

/-- The failure exit of `processTwitterVideo`: guarded cleanup of the audio
file when one was created, one error event with `overallProgress` 100, and
the classified error rethrown. -/
def failRun (events : List WsEvent) (audioPath : Option String) (fs : List String)
    (m : String) : RunResult :=
  let fs1 := match audioPath with
    | some p => cleanupIfExists fs p
    | none => fs
  let c := classifyError m
  ⟨events ++ [WsEvent.error c.1 100], .error c.2, fs1⟩

/-- The download-success message; the source interpolates the size with
`toFixed(1)` decimal rendering, which is abstracted to integer megabytes
(no claim reads this message). -/
def downloadMessage (videoSize : ℕ) : String :=
  "Video downloaded successfully (" ++ toString (videoSize / (1024 * 1024)) ++ "MB)"

/-- src/server/routes.ts `processTwitterVideo(input)`. Stages run in
sequence; each emits its start and completion progress events. Extraction
creates the audio artifact (the transient video file handling inside
`extractAudioFromVideo` is below the granularity of the claims). The
transcription stage is raced against the 90-second timer; the ticker events
are emitted while it runs. When `transcribeAudio` settles on its own, it
has removed the audio file (unconditionally on success, behind a guard on
failure in the current revision — `transcribeCleaned` covers both
revisions); when the timer wins, the file is untouched and the catch path
removes it. -/
def processTwitterVideo (env : PipelineEnv) (input : TwitterUrlInput)
    (fs0 : List String) : RunResult :=
  let e1 := [mkProgress 1 10 "Connecting to Twitter API..."]
  match env.metadata with
  | .error m => failRun e1 none fs0 m
  | .ok videoInfo =>
    let e2 := e1 ++ [mkProgress 1 100 "Successfully fetched video details from Twitter",
                     mkProgress 2 10 "Starting video download..."]
    match env.download with
    | .error m => failRun e2 none fs0 m
    | .ok videoSize =>
      let e3 := e2 ++ [mkProgress 2 100 (downloadMessage videoSize),
                       mkProgress 3 10 "Extracting audio from video..."]
      match env.extraction with
      | .error m => failRun e3 none fs0 m
      | .ok audioPath =>
        let fs1 := audioPath :: fs0
        let e4 := e3 ++ [mkProgress 3 100 "Audio extracted successfully",
                         mkProgress 4 10 "Beginning transcription process..."]
        let e5 := e4 ++ tickEvents 10 env.ticks
        if env.transcriptionDur < OVERALL_TIMEOUT then
          match env.transcription with
          | .error m =>
            let fs2 := if env.transcribeCleaned then fs1.erase audioPath else fs1
            failRun e5 (some audioPath) fs2 m
          | .ok tr =>
            let fs2 := fs1.erase audioPath
            let e6 := e5 ++ [mkProgress 4 90 "Formatting transcript...",
                             mkProgress 4 100 "Transcription completed successfully"]
            let fs3 := cleanupIfExists fs2 audioPath
            let duration := match tr.segments.getLast? with
              | none => "0:00"
              | some lastSegment =>
                if lastSegment.timestamp = "" then "0:00" else lastSegment.timestamp
            ⟨e6, .ok ⟨input.url, "Tweet by " ++ videoInfo.authorName, videoInfo.username,
                      duration, tr.language, input.timestampFormat, tr.segments⟩, fs3⟩
        else
          failRun e5 (some audioPath) fs1
            "Transcription process timed out after 90 seconds"

def inputEx : TwitterUrlInput := ⟨"https://x.com/u/status/1", "auto", "seconds"⟩

def envLongDownload : PipelineEnv :=
  ⟨.ok ⟨"1", "user", "Author", "https://video", ""⟩, 0,
   .ok 1000, 100000,
   .ok "tmp/audio_1.wav", 0,
   .ok ⟨[⟨"0:05", "hi"⟩], "en"⟩, 0, true, []⟩

/-- C1 counterexample: a run whose download alone takes 100 seconds (total
download+extraction+transcription time over 90 seconds) still succeeds,
because the 90-second timer is only started around the transcription
stage. -/
theorem pipeline_90s_not_end_to_end :
    90000 < envLongDownload.downloadDur + envLongDownload.extractionDur +
      envLongDownload.transcriptionDur ∧
    ∃ d, (processTwitterVideo envLongDownload inputEx []).result = Except.ok d :=
  ⟨by decide, ⟨_, rfl⟩⟩

/-- The 90-second race rejection message is classified into the Timeout
bucket by the branch of the catch block that tests for the substring
"timed out". -/
theorem classifyError_timeout_msg :
    classifyError "Transcription process timed out after 90 seconds" =
      ("Transcription process timed out. Try a shorter video or try again later.",
       "Transcription process timed out. The video may be too long or complex for processing.") := by
  decide

/-- C1 amended. The 90-second timeout covers only the transcription stage:
when download and extraction have completed and the transcription promise
has not settled within 90 seconds of the race starting, the run is
abandoned and delivered as the Timeout classification, with a final error
event at overall progress 100. -/
theorem pipeline_timeout_covers_transcription_stage
    (env : PipelineEnv) (input : TwitterUrlInput) (fs0 : List String)
    (vi : VideoInfo) (n : ℕ) (p : String)
    (hmeta : env.metadata = .ok vi) (hdl : env.download = .ok n)
    (hex : env.extraction = .ok p)
    (hdur : OVERALL_TIMEOUT ≤ env.transcriptionDur) :
    (processTwitterVideo env input fs0).result =
      .error "Transcription process timed out. The video may be too long or complex for processing." ∧
    (processTwitterVideo env input fs0).events.getLast? =
      some (WsEvent.error "Transcription process timed out. Try a shorter video or try again later." 100) := by
  unfold processTwitterVideo
  rw [hmeta, hdl, hex]
  dsimp only
  rw [if_neg (not_lt.mpr hdur)]
  unfold failRun
  rw [classifyError_timeout_msg]
  constructor
  · rfl
  · rw [List.getLast?_concat]

def envSlowTranscription : PipelineEnv :=
  ⟨.ok ⟨"1", "u", "A", "v", ""⟩, 0, .ok 5, 0, .ok "a.wav", 0,
   .ok ⟨[], "en"⟩, 90000, true, []⟩

/-- C1 amended witness: a concrete run whose transcription needs 90
seconds is delivered as Timeout. -/
theorem pipeline_timeout_covers_transcription_stage_witness :
    (processTwitterVideo envSlowTranscription inputEx []).result =
      .error "Transcription process timed out. The video may be too long or complex for processing." ∧
    (processTwitterVideo envSlowTranscription inputEx []).events.getLast? =
      some (WsEvent.error "Transcription process timed out. Try a shorter video or try again later." 100) :=
  pipeline_timeout_covers_transcription_stage envSlowTranscription inputEx []
    ⟨"1", "u", "A", "v", ""⟩ 5 "a.wav" rfl rfl rfl (by decide)

/-- C3. On every exit path of a run - success, stage failure, or timeout -
the audio artifact created by extraction is absent from the final
filesystem, and a further deletion attempt on it is the silent guarded skip
(`cleanupIfExists` leaves the filesystem unchanged and cannot raise, unlike
bare `unlinkSync`). -/
theorem pipeline_audio_artifact_deleted (env : PipelineEnv) (input : TwitterUrlInput)
    (fs0 : List String) (p : String)
    (hex : env.extraction = .ok p) (hfresh : p ∉ fs0) :
    p ∉ (processTwitterVideo env input fs0).fs ∧
    cleanupIfExists (processTwitterVideo env input fs0).fs p =
      (processTwitterVideo env input fs0).fs := by
  have key : p ∉ (processTwitterVideo env input fs0).fs := by
    unfold processTwitterVideo
    cases hmeta : env.metadata with
    | error m => simpa [failRun] using hfresh
    | ok vi =>
      cases hdl : env.download with
      | error m => simpa [failRun] using hfresh
      | ok n =>
        rw [hex]
        dsimp only
        by_cases hdur : env.transcriptionDur < OVERALL_TIMEOUT
        · rw [if_pos hdur]
          cases htr : env.transcription with
          | error m =>
            by_cases hc : env.transcribeCleaned
            · simp [failRun, hc, cleanupIfExists, List.erase_cons_head, hfresh]
            · simp [failRun, hc, cleanupIfExists, List.erase_cons_head, hfresh]
          | ok tr =>
            simp [cleanupIfExists, List.erase_cons_head, hfresh]
        · rw [if_neg hdur]
          simp [failRun, cleanupIfExists, List.erase_cons_head, hfresh]
  refine ⟨key, ?_⟩
  simp [cleanupIfExists, key]

/-- C3 witness: concrete successful run; the artifact is gone afterwards
and re-deletion is a no-op. -/
theorem pipeline_audio_artifact_deleted_witness :
    "tmp/audio_1.wav" ∉ (processTwitterVideo envLongDownload inputEx []).fs ∧
    cleanupIfExists (processTwitterVideo envLongDownload inputEx []).fs "tmp/audio_1.wav" =
      (processTwitterVideo envLongDownload inputEx []).fs :=
  pipeline_audio_artifact_deleted envLongDownload inputEx [] "tmp/audio_1.wav" rfl
    (by decide)

def envEmptyTimestamp : PipelineEnv :=
  ⟨.ok ⟨"1", "u", "A", "v", ""⟩, 0, .ok 5, 0, .ok "a.wav", 0,
   .ok ⟨[⟨"", "hello"⟩], "en"⟩, 0, true, []⟩

/-- C9 counterexample: when the last segment carries the empty timestamp
(timestamp format `none`), the produced duration is `"0:00"`, not the
timestamp string of the last segment. -/
theorem duration_ignores_empty_last_timestamp :
    (processTwitterVideo envEmptyTimestamp inputEx []).result =
      Except.ok ⟨"https://x.com/u/status/1", "Tweet by A", "u", "0:00", "en", "seconds",
        [⟨"", "hello"⟩]⟩ ∧
    ([(⟨"", "hello"⟩ : TranscriptSegment)].getLast? = some ⟨"", "hello"⟩) ∧
    ("0:00" : String) ≠ "" :=
  ⟨rfl, rfl, by decide⟩

/-- C9 amended. On success the duration is the timestamp of the last
segment when that string is nonempty, and `"0:00"` when there are no
segments or the last timestamp is the empty string, mirroring
`lastSegment.timestamp || "0:00"`. -/
theorem pipeline_duration_from_last_segment (env : PipelineEnv)
    (input : TwitterUrlInput) (fs0 : List String)
    (vi : VideoInfo) (n : ℕ) (p : String) (tr : TranscriptionResult)
    (hmeta : env.metadata = .ok vi) (hdl : env.download = .ok n)
    (hex : env.extraction = .ok p) (htr : env.transcription = .ok tr)
    (hdur : env.transcriptionDur < OVERALL_TIMEOUT) :
    ∃ d, (processTwitterVideo env input fs0).result = Except.ok d ∧
      (tr.segments = [] → d.duration = "0:00") ∧
      (∀ s, tr.segments.getLast? = some s →
        d.duration = (if s.timestamp = "" then "0:00" else s.timestamp)) := by
  unfold processTwitterVideo
  rw [hmeta, hdl, hex]
  dsimp only
  rw [if_pos hdur, htr]
  dsimp only
  refine ⟨_, rfl, ?_, ?_⟩
  · intro h
    simp [h]
  · intro s hs
    simp [hs]

/-- C9 amended witness: concrete run with last timestamp "0:05". -/
theorem pipeline_duration_from_last_segment_witness :
    ∃ d, (processTwitterVideo envLongDownload inputEx []).result = Except.ok d ∧
      (([⟨"0:05", "hi"⟩] : List TranscriptSegment) = [] → d.duration = "0:00") ∧
      (∀ s, ([⟨"0:05", "hi"⟩] : List TranscriptSegment).getLast? = some s →
        d.duration = (if s.timestamp = "" then "0:00" else s.timestamp)) :=
  pipeline_duration_from_last_segment envLongDownload inputEx []
    ⟨"1", "user", "Author", "https://video", ""⟩ 1000 "tmp/audio_1.wav"
    ⟨[⟨"0:05", "hi"⟩], "en"⟩ rfl rfl rfl rfl (by decide)

/-- The `overallProgress` of a regular progress event is `computeOverall`. -/
theorem overallOf_mkProgress (s sp : ℕ) (m : String) :
    overallOf (mkProgress s sp m) = computeOverall s sp := rfl

/-- Every computed overall progress value is capped at 100. -/
theorem computeOverall_le_100 (s sp : ℕ) : computeOverall s sp ≤ 100 :=
  min_le_right _ _

/-- Within step 4, overall progress is monotone in the step progress. -/
theorem computeOverall4_mono {a b : ℕ} (h : a ≤ b) :
    computeOverall 4 a ≤ computeOverall 4 b := by
  unfold computeOverall jsRound
  refine min_le_min ?_ (le_refl _)
  apply Int.floor_le_floor
  have hq : (a : ℚ) ≤ (b : ℚ) := by exact_mod_cast h
  gcongr

theorem co_1_10 : computeOverall 1 10 = 3 := by unfold computeOverall jsRound; norm_num

theorem co_1_100 : computeOverall 1 100 = 25 := by unfold computeOverall jsRound; norm_num

theorem co_2_10 : computeOverall 2 10 = 28 := by unfold computeOverall jsRound; norm_num

theorem co_2_100 : computeOverall 2 100 = 50 := by unfold computeOverall jsRound; norm_num

theorem co_3_10 : computeOverall 3 10 = 53 := by unfold computeOverall jsRound; norm_num

theorem co_3_100 : computeOverall 3 100 = 75 := by unfold computeOverall jsRound; norm_num

theorem co_4_10 : computeOverall 4 10 = 78 := by unfold computeOverall jsRound; norm_num

theorem co_4_84 : computeOverall 4 84 = 96 := by unfold computeOverall jsRound; norm_num

theorem co_4_90 : computeOverall 4 90 = 98 := by unfold computeOverall jsRound; norm_num

theorem co_4_100 : computeOverall 4 100 = 100 := by unfold computeOverall jsRound; norm_num

/-- Every ticker event is a regular step-4 progress event. -/
theorem tickEvents_shape (is : List ℕ) :
    ∀ cp e, e ∈ tickEvents cp is → ∃ c, e = mkProgress 4 c tickMessage := by
  induction is with
  | nil => intro cp e he; simp [tickEvents] at he
  | cons i is ih =>
    intro cp e he
    unfold tickEvents at he
    by_cases hcp : cp < 80
    · rw [if_pos hcp] at he
      rcases List.mem_cons.mp he with h1 | h1
      · exact ⟨cp + i, h1⟩
      · exact ih _ e h1
    · rw [if_neg hcp] at he
      exact ih _ e he

/-- Ticker events have overall progress between the value at the starting
counter and the value at counter 84 (the largest counter reachable when
each increment is at most 5 and the gate requires the previous counter to
be below 80). -/
theorem tickEvents_overall_bounds (is : List ℕ) :
    ∀ cp, (∀ i ∈ is, i ≤ 5) →
    ∀ e ∈ tickEvents cp is,
      computeOverall 4 cp ≤ overallOf e ∧ overallOf e ≤ computeOverall 4 84 := by
  induction is with
  | nil => intro cp _ e he; simp [tickEvents] at he
  | cons i is ih =>
    intro cp h5 e he
    unfold tickEvents at he
    by_cases hcp : cp < 80
    · rw [if_pos hcp] at he
      rcases List.mem_cons.mp he with h1 | h1
      · subst h1
        rw [overallOf_mkProgress]
        constructor
        · exact computeOverall4_mono (Nat.le_add_right cp i)
        · have hle : cp + i ≤ 84 := by
            have hi : i ≤ 5 := h5 i (List.mem_cons_self _ _)
            omega
          exact computeOverall4_mono hle
      · have hrest := ih (cp + i) (fun j hj => h5 j (List.mem_cons_of_mem _ hj)) e h1
        exact ⟨le_trans (computeOverall4_mono (Nat.le_add_right cp i)) hrest.1, hrest.2⟩
    · rw [if_neg hcp] at he
      exact ih cp (fun j hj => h5 j (List.mem_cons_of_mem _ hj)) e he

/-- Ticker events are emitted with nondecreasing overall progress. -/
theorem tickEvents_pairwise (is : List ℕ) :
    ∀ cp, (∀ i ∈ is, i ≤ 5) →
    List.Pairwise (fun a b => overallOf a ≤ overallOf b) (tickEvents cp is) := by
  induction is with
  | nil => intro cp _; exact List.Pairwise.nil
  | cons i is ih =>
    intro cp h5
    unfold tickEvents
    by_cases hcp : cp < 80
    · rw [if_pos hcp]
      refine List.Pairwise.cons ?_ (ih (cp + i) (fun j hj => h5 j (List.mem_cons_of_mem _ hj)))
      intro e he
      rw [overallOf_mkProgress]
      exact (tickEvents_overall_bounds is (cp + i)
        (fun j hj => h5 j (List.mem_cons_of_mem _ hj)) e he).1
    · rw [if_neg hcp]
      exact ih cp (fun j hj => h5 j (List.mem_cons_of_mem _ hj))

/-- The `overallProgress` of an error event. -/
theorem overallOf_error (m : String) (o : ℕ) :
    overallOf (WsEvent.error m o) = (o : ℤ) := rfl

/-- Appending the final error event (overall 100) preserves monotonicity
when every earlier event is at most 100. -/
theorem pairwise_concat_error (E : List WsEvent) (m : String)
    (hE : List.Pairwise (fun a b => overallOf a ≤ overallOf b) E)
    (hle : ∀ e ∈ E, overallOf e ≤ 100) :
    List.Pairwise (fun a b => overallOf a ≤ overallOf b) (E ++ [WsEvent.error m 100]) := by
  rw [List.pairwise_append]
  refine ⟨hE, List.pairwise_singleton _ _, ?_⟩
  intro a ha b hb
  simp only [List.mem_singleton] at hb
  subst hb
  exact hle a ha

/-- The seven fixed stage events are emitted with nondecreasing overall
progress (values 3, 25, 28, 50, 53, 75, 78). -/
theorem prefix7_pairwise (m1 m2 m3 m4 m5 m6 m7 : String) :
    List.Pairwise (fun a b => overallOf a ≤ overallOf b)
      ((([mkProgress 1 10 m1] ++ [mkProgress 1 100 m2, mkProgress 2 10 m3]) ++
        [mkProgress 2 100 m4, mkProgress 3 10 m5]) ++
        [mkProgress 3 100 m6, mkProgress 4 10 m7]) := by
  simp [List.pairwise_append, List.pairwise_cons, List.mem_append, List.mem_cons,
    overallOf_mkProgress, co_1_10, co_1_100, co_2_10, co_2_100, co_3_10, co_3_100, co_4_10]

/-- The seven fixed stage events have overall progress at most 78. -/
theorem prefix7_le_78 (m1 m2 m3 m4 m5 m6 m7 : String) :
    ∀ e ∈ (([mkProgress 1 10 m1] ++ [mkProgress 1 100 m2, mkProgress 2 10 m3]) ++
        [mkProgress 2 100 m4, mkProgress 3 10 m5]) ++
        [mkProgress 3 100 m6, mkProgress 4 10 m7],
      overallOf e ≤ 78 := by
  intro e he
  simp only [List.mem_append, List.mem_cons, List.mem_singleton, List.not_mem_nil, or_false] at he
  rcases he with ((h | (h | h)) | (h | h)) | (h | h) <;>
    (subst h; rw [overallOf_mkProgress]) <;>
    simp [co_1_10, co_1_100, co_2_10, co_2_100, co_3_10, co_3_100, co_4_10]

/-- The stage prefix followed by ticker events is monotone. -/
theorem prefix7T_pairwise (ticks : List ℕ) (h5 : ∀ i ∈ ticks, i ≤ 5)
    (m1 m2 m3 m4 m5 m6 m7 : String) :
    List.Pairwise (fun a b => overallOf a ≤ overallOf b)
      (((([mkProgress 1 10 m1] ++ [mkProgress 1 100 m2, mkProgress 2 10 m3]) ++
        [mkProgress 2 100 m4, mkProgress 3 10 m5]) ++
        [mkProgress 3 100 m6, mkProgress 4 10 m7]) ++ tickEvents 10 ticks) := by
  rw [List.pairwise_append]
  refine ⟨prefix7_pairwise m1 m2 m3 m4 m5 m6 m7, tickEvents_pairwise ticks 10 h5, ?_⟩
  intro a ha t ht
  have h78 := prefix7_le_78 m1 m2 m3 m4 m5 m6 m7 a ha
  have hlow := (tickEvents_overall_bounds ticks 10 h5 t ht).1
  rw [co_4_10] at hlow
  exact le_trans h78 hlow

/-- Stage prefix plus ticker events stay at or below overall progress 96. -/
theorem prefix7T_le_96 (ticks : List ℕ) (h5 : ∀ i ∈ ticks, i ≤ 5)
    (m1 m2 m3 m4 m5 m6 m7 : String) :
    ∀ e ∈ ((([mkProgress 1 10 m1] ++ [mkProgress 1 100 m2, mkProgress 2 10 m3]) ++
        [mkProgress 2 100 m4, mkProgress 3 10 m5]) ++
        [mkProgress 3 100 m6, mkProgress 4 10 m7]) ++ tickEvents 10 ticks,
      overallOf e ≤ 96 := by
  intro e he
  rcases List.mem_append.mp he with h | h
  · exact le_trans (prefix7_le_78 m1 m2 m3 m4 m5 m6 m7 e h) (by norm_num)
  · have := (tickEvents_overall_bounds ticks 10 h5 e h).2
    rw [co_4_84] at this
    exact this

/-- C5. Within a single run, the `overallProgress` values of the
successively emitted progress and error events form a nondecreasing
sequence; the hypothesis on the tick increments is what the source
guarantees (`Math.floor(Math.random() * 5) + 1 ≤ 5`). -/
theorem pipeline_overall_monotone (env : PipelineEnv) (input : TwitterUrlInput)
    (fs0 : List String) (h5 : ∀ i ∈ env.ticks, i ≤ 5) :
    List.Chain' (fun a b => overallOf a ≤ overallOf b)
      (processTwitterVideo env input fs0).events := by
  apply List.Pairwise.chain'
  unfold processTwitterVideo
  cases hmeta : env.metadata with
  | error m =>
    dsimp only [failRun]
    apply pairwise_concat_error
    · exact List.pairwise_singleton _ _
    · intro e he
      simp only [List.mem_singleton] at he
      subst he
      rw [overallOf_mkProgress]
      exact computeOverall_le_100 _ _
  | ok vi =>
    cases hdl : env.download with
    | error m =>
      dsimp only [failRun]
      apply pairwise_concat_error
      · simp [List.pairwise_append, List.pairwise_cons, List.mem_cons, overallOf_mkProgress,
          co_1_10, co_1_100, co_2_10]
      · intro e he
        simp only [List.mem_append, List.mem_cons, List.mem_singleton, List.not_mem_nil,
          or_false] at he
        rcases he with h | (h | h) <;>
          (subst h; rw [overallOf_mkProgress]; exact computeOverall_le_100 _ _)
    | ok n =>
      cases hex : env.extraction with
      | error m =>
        dsimp only [failRun]
        apply pairwise_concat_error
        · simp [List.pairwise_append, List.pairwise_cons, List.mem_append, List.mem_cons,
            overallOf_mkProgress, co_1_10, co_1_100, co_2_10, co_2_100, co_3_10]
        · intro e he
          simp only [List.mem_append, List.mem_cons, List.mem_singleton, List.not_mem_nil,
            or_false] at he
          rcases he with (h | (h | h)) | (h | h) <;>
            (subst h; rw [overallOf_mkProgress]; exact computeOverall_le_100 _ _)
      | ok p =>
        dsimp only
        by_cases hdur : env.transcriptionDur < OVERALL_TIMEOUT
        · rw [if_pos hdur]
          cases htr : env.transcription with
          | error m =>
            dsimp only [failRun]
            apply pairwise_concat_error
            · exact prefix7T_pairwise env.ticks h5 _ _ _ _ _ _ _
            · intro e he
              exact le_trans (prefix7T_le_96 env.ticks h5 _ _ _ _ _ _ _ e he) (by norm_num)
          | ok tr =>
            dsimp only
            rw [List.pairwise_append]
            refine ⟨prefix7T_pairwise env.ticks h5 _ _ _ _ _ _ _, ?_, ?_⟩
            · simp [List.pairwise_cons, overallOf_mkProgress, co_4_90, co_4_100]
            · intro a ha b hb
              have ha96 := prefix7T_le_96 env.ticks h5 _ _ _ _ _ _ _ a ha
              simp only [List.mem_cons, List.mem_singleton, List.not_mem_nil, or_false] at hb
              rcases hb with h | h <;>
                (subst h; rw [overallOf_mkProgress]) <;>
                simp [co_4_90, co_4_100] <;> omega
        · rw [if_neg hdur]
          dsimp only [failRun]
          apply pairwise_concat_error
          · exact prefix7T_pairwise env.ticks h5 _ _ _ _ _ _ _
          · intro e he
            exact le_trans (prefix7T_le_96 env.ticks h5 _ _ _ _ _ _ _ e he) (by norm_num)

def envTicks : PipelineEnv :=
  ⟨.ok ⟨"1", "u", "A", "v", ""⟩, 0, .ok 5, 0, .ok "a.wav", 0,
   .ok ⟨[⟨"0:05", "hi"⟩], "en"⟩, 0, true, [3, 4]⟩

/-- C5 witness: a concrete successful run with two ticker firings. -/
theorem pipeline_overall_monotone_witness :
    List.Chain' (fun a b => overallOf a ≤ overallOf b)
      (processTwitterVideo envTicks inputEx []).events :=
  pipeline_overall_monotone envTicks inputEx [] (by decide)

/-- Every event of the stage prefix plus ticker region is a regular
progress event. -/
theorem prefix7T_shape (ticks : List ℕ) (m1 m2 m3 m4 m5 m6 m7 : String) :
    ∀ e ∈ ((([mkProgress 1 10 m1] ++ [mkProgress 1 100 m2, mkProgress 2 10 m3]) ++
        [mkProgress 2 100 m4, mkProgress 3 10 m5]) ++
        [mkProgress 3 100 m6, mkProgress 4 10 m7]) ++ tickEvents 10 ticks,
      ∃ s sp m, e = mkProgress s sp m := by
  intro e he
  rcases List.mem_append.mp he with h | h
  · simp only [List.mem_append, List.mem_cons, List.mem_singleton, List.not_mem_nil,
      or_false] at h
    rcases h with ((h | (h | h)) | (h | h)) | (h | h) <;> exact ⟨_, _, _, h⟩
  · obtain ⟨c, hc⟩ := tickEvents_shape ticks 10 e h
    exact ⟨_, _, _, hc⟩

/-- Every emitted event is either a regular progress event built by
`broadcastProgress` or the final error event with overall progress 100. -/
theorem run_events_shape (env : PipelineEnv) (input : TwitterUrlInput)
    (fs0 : List String) :
    ∀ e ∈ (processTwitterVideo env input fs0).events,
      (∃ s sp m, e = mkProgress s sp m) ∨ (∃ m, e = WsEvent.error m 100) := by
  unfold processTwitterVideo
  cases hmeta : env.metadata with
  | error m =>
    intro e he
    dsimp only [failRun] at he
    simp only [List.mem_append, List.mem_cons, List.mem_singleton, List.not_mem_nil,
      or_false] at he
    rcases he with h | h
    · exact Or.inl ⟨_, _, _, h⟩
    · exact Or.inr ⟨_, h⟩
  | ok vi =>
    cases hdl : env.download with
    | error m =>
      intro e he
      dsimp only [failRun] at he
      simp only [List.mem_append, List.mem_cons, List.mem_singleton, List.not_mem_nil,
        or_false] at he
      rcases he with (h | (h | h)) | h
      · exact Or.inl ⟨_, _, _, h⟩
      · exact Or.inl ⟨_, _, _, h⟩
      · exact Or.inl ⟨_, _, _, h⟩
      · exact Or.inr ⟨_, h⟩
    | ok n =>
      cases hex : env.extraction with
      | error m =>
        intro e he
        dsimp only [failRun] at he
        simp only [List.mem_append, List.mem_cons, List.mem_singleton, List.not_mem_nil,
          or_false] at he
        rcases he with ((h | (h | h)) | (h | h)) | h
        · exact Or.inl ⟨_, _, _, h⟩
        · exact Or.inl ⟨_, _, _, h⟩
        · exact Or.inl ⟨_, _, _, h⟩
        · exact Or.inl ⟨_, _, _, h⟩
        · exact Or.inl ⟨_, _, _, h⟩
        · exact Or.inr ⟨_, h⟩
      | ok p =>
        dsimp only
        by_cases hdur : env.transcriptionDur < OVERALL_TIMEOUT
        · rw [if_pos hdur]
          cases htr : env.transcription with
          | error m =>
            intro e he
            dsimp only [failRun] at he
            rcases List.mem_append.mp he with h | h
            · exact Or.inl (prefix7T_shape env.ticks _ _ _ _ _ _ _ e h)
            · simp only [List.mem_singleton] at h
              exact Or.inr ⟨_, h⟩
          | ok tr =>
            intro e he
            dsimp only at he
            rcases List.mem_append.mp he with h | h
            · exact Or.inl (prefix7T_shape env.ticks _ _ _ _ _ _ _ e h)
            · simp only [List.mem_cons, List.mem_singleton, List.not_mem_nil, or_false] at h
              rcases h with h | h
              · exact Or.inl ⟨_, _, _, h⟩
              · exact Or.inl ⟨_, _, _, h⟩
        · rw [if_neg hdur]
          intro e he
          dsimp only [failRun] at he
          rcases List.mem_append.mp he with h | h
          · exact Or.inl (prefix7T_shape env.ticks _ _ _ _ _ _ _ e h)
          · simp only [List.mem_singleton] at h
            exact Or.inr ⟨_, h⟩

/-- C6. Every emitted progress event satisfies
`overallProgress = min(100, round((step - 1) * 25 + stepProgress * 25 / 100))`,
with `round` half-up as in `Math.round`. -/
theorem pipeline_progress_overall_formula (env : PipelineEnv)
    (input : TwitterUrlInput) (fs0 : List String) (pl : ProgressPayload)
    (he : WsEvent.progress pl ∈ (processTwitterVideo env input fs0).events) :
    pl.overallProgress =
      min (jsRound (((pl.step : ℚ) - 1) * 25 + ((pl.progress : ℚ) * 25) / 100)) 100 := by
  rcases run_events_shape env input fs0 _ he with ⟨s, sp, m, hm⟩ | ⟨m, hm⟩
  · unfold mkProgress at hm
    injection hm with h
    subst h
    rfl
  · cases hm

/-- C6 witness: the first event of a concrete run satisfies the formula. -/
theorem pipeline_progress_overall_formula_witness :
    WsEvent.progress
        ⟨1, 10, "active", "Connecting to Twitter API...", computeOverall 1 10⟩ ∈
      (processTwitterVideo envTicks inputEx []).events ∧
    (⟨1, 10, "active", "Connecting to Twitter API...", computeOverall 1 10⟩ :
        ProgressPayload).overallProgress =
      min (jsRound ((((1 : ℕ) : ℚ) - 1) * 25 + (((10 : ℕ) : ℚ) * 25) / 100)) 100 := by
  constructor
  · simp [processTwitterVideo, envTicks, mkProgress, statusOf, OVERALL_TIMEOUT]
  · exact pipeline_progress_overall_formula envTicks inputEx []
      ⟨1, 10, "active", "Connecting to Twitter API...", computeOverall 1 10⟩
      (by simp [processTwitterVideo, envTicks, mkProgress, statusOf, OVERALL_TIMEOUT])
